import Mathlib

/-!
# Verification of the Notify tuner core

Shallow embedding of the pitch-detection pipeline of the Notify repository.
The repository has two variant implementations of the same tuner:

* `tuner.py` — a PyAudio/scipy console tuner (`Tuner._process_audio`,
  `Tuner._get_peak_frequency`, `Tuner._freq_to_note`,
  `Tuner._get_cents_deviation`, the `NOTE_FREQUENCIES` table);
* `test.py` — an aiohttp server whose HTML page embeds a JavaScript tuner
  (`detectPitch`, `getNote`, `getCents`, `analyze`, the same
  `NOTE_FREQUENCIES` table serialized into the page).

Samples, sample rates and note-table frequencies are modelled as `ℚ`
(the table literals are exact two-decimal values); quantities that the
source computes with `cos`, `log2` or complex exponentials are modelled
over `ℝ`/`ℂ`.
-/

/-- Table `NOTE_FREQUENCIES` of `tuner.py` (lines 10–26): the fixed
note-name → frequency dictionary, in insertion order. -/
def NOTE_FREQUENCIES : List (String × ℚ) :=
  [("C0", 16.35), ("C#0", 17.32), ("D0", 18.35), ("D#0", 19.45),
   ("E0", 20.60), ("F0", 21.83), ("F#0", 23.12), ("G0", 24.50),
   ("G#0", 25.96), ("A0", 27.50), ("A#0", 29.14), ("B0", 30.87),
   ("C1", 32.70), ("C#1", 34.65), ("D1", 36.71), ("D#1", 38.89),
   ("E1", 41.20), ("F1", 43.65), ("F#1", 46.25), ("G1", 49.00),
   ("G#1", 51.91), ("A1", 55.00), ("A#1", 58.27), ("B1", 61.74),
   ("C2", 65.41), ("C#2", 69.30), ("D2", 73.42), ("D#2", 77.78),
   ("E2", 82.41), ("F2", 87.31), ("F#2", 92.50), ("G2", 98.00),
   ("G#2", 103.83), ("A2", 110.00), ("A#2", 116.54), ("B2", 123.47),
   ("C3", 130.81), ("C#3", 138.59), ("D3", 146.83), ("D#3", 155.56),
   ("E3", 164.81), ("F3", 174.61), ("F#3", 185.00), ("G3", 196.00),
   ("G#3", 207.65), ("A3", 220.00), ("A#3", 233.08), ("B3", 246.94),
   ("C4", 261.63), ("C#4", 277.18), ("D4", 293.66), ("D#4", 311.13),
   ("E4", 329.63), ("F4", 349.23), ("F#4", 369.99), ("G4", 392.00),
   ("G#4", 415.30), ("A4", 440.00), ("A#4", 466.16), ("B4", 493.88)]

/-- Table `NOTE_FREQUENCIES` of `test.py` (lines 10–26): the table literal of the
second variant, transcribed separately so that the two variants can be
compared. -/
def NOTE_FREQUENCIES_js : List (String × ℚ) :=
  [("C0", 16.35), ("C#0", 17.32), ("D0", 18.35), ("D#0", 19.45),
   ("E0", 20.60), ("F0", 21.83), ("F#0", 23.12), ("G0", 24.50),
   ("G#0", 25.96), ("A0", 27.50), ("A#0", 29.14), ("B0", 30.87),
   ("C1", 32.70), ("C#1", 34.65), ("D1", 36.71), ("D#1", 38.89),
   ("E1", 41.20), ("F1", 43.65), ("F#1", 46.25), ("G1", 49.00),
   ("G#1", 51.91), ("A1", 55.00), ("A#1", 58.27), ("B1", 61.74),
   ("C2", 65.41), ("C#2", 69.30), ("D2", 73.42), ("D#2", 77.78),
   ("E2", 82.41), ("F2", 87.31), ("F#2", 92.50), ("G2", 98.00),
   ("G#2", 103.83), ("A2", 110.00), ("A#2", 116.54), ("B2", 123.47),
   ("C3", 130.81), ("C#3", 138.59), ("D3", 146.83), ("D#3", 155.56),
   ("E3", 164.81), ("F3", 174.61), ("F#3", 185.00), ("G3", 196.00),
   ("G#3", 207.65), ("A3", 220.00), ("A#3", 233.08), ("B3", 246.94),
   ("C4", 261.63), ("C#4", 277.18), ("D4", 293.66), ("D#4", 311.13),
   ("E4", 329.63), ("F4", 349.23), ("F#4", 369.99), ("G4", 392.00),
   ("G#4", 415.30), ("A4", 440.00), ("A#4", 466.16), ("B4", 493.88)]

/-- The "keep the first strict improvement" left fold shared by the loops of
both variants: Python's `min(..., key=...)` (first minimum wins) and the
JavaScript `reduce`/`for` scans (which replace the accumulator only on a
strict comparison, so the first optimum wins). -/
def foldBest {α : Type} {β : Type} [LinearOrder β] (key : α → β) (b : α) (l : List α) : α :=
  l.foldl (fun best y => if key y < key best then y else best) b

/-- Function `_freq_to_note` of `tuner.py` (lines 96–100):
`min(NOTE_FREQUENCIES.items(), key=lambda x: abs(frequency - x[1]))[0]`.
The table is passed explicitly (the source reads the module-level
`NOTE_FREQUENCIES`); Python's `min` on an empty iterable raises, modelled
as `none`. -/
def freq_to_note (table : List (String × ℚ)) (frequency : ℚ) : Option String :=
  match table with
  | [] => none
  | x :: xs => some (foldBest (fun e => |frequency - e.2|) x xs).1

/-- Function `getNote` of `test.py` (lines 157–163): `Object.entries(noteFreqs).reduce`
with the comparison of line 159 taken verbatim:
`Math.abs(freq - frequency) < Math.abs(freq - closest.freq)` — the candidate
entry's distance TO THE INPUT on the left, but the candidate entry's distance
TO THE PREVIOUSLY HELD ENTRY'S FREQUENCY on the right (not the previous
entry's distance to the input). This is not the nearest-entry rule.
The initial accumulator `{note: '', freq: Infinity}` is modelled as `none`:
`|freq - Infinity|` is `Infinity`, so the first entry always replaces it; on
an empty table the JS sentinel itself is returned, modelled as `none`. -/
def getNote (table : List (String × ℚ)) (frequency : ℚ) : Option (String × ℚ) :=
  table.foldl
    (fun closest nf =>
      match closest with
      | none => some nf
      | some c => if |nf.2 - frequency| < |nf.2 - c.2| then some nf else some c)
    none

/-- Function `getCents` of `test.py` (lines 165–167):
`Math.floor(1200 * Math.log2(frequency / targetFreq))`. -/
noncomputable def getCents (frequency targetFreq : ℝ) : ℤ :=
  ⌊1200 * Real.logb 2 (frequency / targetFreq)⌋

/-- Function `_get_cents_deviation` of `tuner.py` (lines 102–105):
`perfect_freq = NOTE_FREQUENCIES[note]; return 1200 * np.log2(freq / perfect_freq)`.
The dictionary access raises `KeyError` for a note absent from the table,
modelled as `none`; otherwise the value is returned unconditionally (there
is no sign check on `freq`). -/
noncomputable def get_cents_deviation (freq : ℝ) (note : String) : Option ℝ :=
  (NOTE_FREQUENCIES.lookup note).map fun perfect_freq =>
    1200 * Real.logb 2 (freq / (perfect_freq : ℝ))

/-- Function `detectPitch` of `test.py` (lines 192–201), first loop: the correlation
array, of length `buffer.length/2`; entry `lag` is
`sum over i < buffer.length/2 of buffer[i] * buffer[i + lag]`.
(`new Float32Array(buffer.length/2)` requires an integral length, i.e. an
even buffer; `/` is modelled by `Nat` floor division, which agrees with the
source on even lengths.) -/
def correlations (buffer : List ℚ) : List ℚ :=
  (List.range (buffer.length / 2)).map fun lag =>
    ((List.range (buffer.length / 2)).map fun i =>
      buffer.getD i 0 * buffer.getD (i + lag) 0).sum

/-- Function `detectPitch` of `test.py` (lines 203–211), second loop:
`maxCorrelation = 0; maxLag = 0; for (lag = 1; lag < correlations.length;
lag++) if (correlations[lag] > maxCorrelation) {maxCorrelation =
correlations[lag]; maxLag = lag}`, returning the final `maxLag`.
The loop over `lag ∈ [1, correlations.length)` is the fold over
`List.range' 1 (cs.length - 1)`; the accumulator is `(maxLag, maxCorrelation)`. -/
def selectLag (cs : List ℚ) : Nat :=
  ((List.range' 1 (cs.length - 1)).foldl
    (fun acc lag => if cs.getD lag 0 > acc.2 then (lag, cs.getD lag 0) else acc)
    ((0 : Nat), (0 : ℚ))).1

/-- Function `detectPitch` of `test.py` (line 213): `return sampleRate / maxLag`.
When `maxLag` is still `0` the JavaScript division yields `Infinity`, which
is no rational number; that outcome is modelled as `none`. -/
def detectPitch (buffer : List ℚ) (sampleRate : ℚ) : Option ℚ :=
  let maxLag := selectLag (correlations buffer)
  if maxLag = 0 then none else some (sampleRate / (maxLag : ℚ))

/-- Numpy `np.fft.fftfreq(n, d)` as used in `tuner.py` line 67: position `k` holds
`k/(d*n)` for `k ≤ (n-1)/2` and `(k-n)/(d*n)` for the remaining positions
(numpy fills positions `(n-1)//2 + 1 … n-1` with `-(n//2) … -1` over `d*n`;
position `k` of that tail holds `k - n` since `(n-1)//2 + (n//2) + 1 = n`). -/
def fftfreq (n : Nat) (d : ℚ) : List ℚ :=
  (List.range n).map fun k =>
    if k ≤ (n - 1) / 2 then (k : ℚ) / (d * n) else ((k : ℚ) - (n : ℚ)) / (d * n)

/-- Function `_get_peak_frequency` of `tuner.py` (lines 85–94): mask both arrays by
`freqs > 0`, take `np.abs` of the complex spectrum, `argmax` (numpy returns
the first index attaining the maximum, i.e. the running maximum is replaced
only on a strict increase), and return the frequency at that index.
Masking both arrays with the same boolean mask keeps positions paired, so it
is the filter of the zipped lists; `argmax` on an empty masked array raises
`ValueError`, modelled as `none`. -/
noncomputable def get_peak_frequency (freqs : List ℚ) (fft_data : List ℂ) : Option ℚ :=
  match ((freqs.zip fft_data).filter fun p => 0 < p.1) with
  | [] => none
  | x :: xs => some (foldBest (fun p => -Complex.abs p.2) x xs).1

/-- Scipy `scipy.signal.windows.hann(M)` as used in `tuner.py` line 63: for
`M ≤ 1` scipy returns `np.ones(M)`; otherwise the symmetric raised-cosine
window `w[i] = 0.5 - 0.5*cos(2*pi*i/(M-1))` (scipy computes
`0.5 + 0.5*cos(x)` over `x = linspace(-pi, pi, M)`, and
`cos(-pi + 2*pi*i/(M-1)) = -cos(2*pi*i/(M-1))`). -/
noncomputable def hannWindow (M : Nat) : List ℝ :=
  if M ≤ 1 then List.replicate M 1
  else (List.range M).map fun (i : Nat) =>
    0.5 - 0.5 * Real.cos (2 * Real.pi * (i : ℝ) / ((M : ℝ) - 1))

/-- Line 63 of `tuner.py`: `windowed = data * hann(len(data))`, numpy
element-wise multiplication. -/
noncomputable def applyWindow (data : List ℝ) : List ℝ :=
  List.zipWith (· * ·) data (hannWindow data.length)

/-- Scipy `scipy.fft.fft` as used in `tuner.py` line 66:
`X[k] = sum over j of x[j] * exp(-2*pi*I*j*k/n)`. -/
noncomputable def dft (x : List ℝ) : List ℂ :=
  (List.range x.length).map fun (k : Nat) =>
    ∑ j ∈ Finset.range x.length,
      (x.getD j 0 : ℂ) *
        Complex.exp (-2 * Real.pi * Complex.I * (j : ℂ) * (k : ℂ) / (x.length : ℂ))

/-- The value printed by `tuner.py` line 79 for one analysis cycle:
note name, detected frequency, cents deviation. -/
structure TuningResult where
  note : String
  frequency : ℚ
  cents : ℝ

/-- Method `_process_audio` of `tuner.py`, lines 62–70: window the frame, take the FFT,
build the bin frequencies (`np.fft.fftfreq(len(fft_data), 1.0/RATE)`), and
pick the dominant frequency. -/
noncomputable def peakEstimate (data : List ℝ) (rate : ℚ) : Option ℚ :=
  let fft_data := dft (applyWindow data)
  get_peak_frequency (fftfreq fft_data.length (1 / rate)) fft_data

/-- Method `_process_audio` of `tuner.py`, lines 62–79, one loop iteration after a
successful read: if the peak frequency is `> 20`, map it to a note, compute
the cents deviation and print one result line; otherwise nothing is printed
and the loop proceeds. `none` covers both the skip (`peak_freq ≤ 20`) and
the exception paths (empty masked spectrum, missing table key), which break
the loop; with the fixed 60-entry table and CHUNK-sized frames the
exception paths are unreachable. -/
noncomputable def process_cycle (data : List ℝ) (rate : ℚ) : Option TuningResult :=
  match peakEstimate data rate with
  | none => none
  | some peak_freq =>
    if peak_freq > 20 then
      match freq_to_note NOTE_FREQUENCIES peak_freq with
      | none => none
      | some note =>
        match get_cents_deviation (peak_freq : ℝ) note with
        | none => none
        | some cents => some ⟨note, peak_freq, cents⟩
    else none

/-- Function `analyze` of `test.py` (lines 176–185), the emission step for a finite
detected frequency: `if (frequency > 20)`, look the note up, compute the
cents, and update the page (the emission); otherwise nothing is shown. -/
noncomputable def js_emit (frequency : ℚ) : Option (String × ℚ × ℤ) :=
  if frequency > 20 then
    (getNote NOTE_FREQUENCIES frequency).map fun nf =>
      (nf.1, frequency, getCents (frequency : ℝ) (nf.2 : ℝ))
  else none

/-! ## Generic facts about the keep-first-optimum fold -/

theorem foldBest_nil {α β : Type} [LinearOrder β] (key : α → β) (b : α) :
    foldBest key b [] = b := rfl

theorem foldBest_cons {α β : Type} [LinearOrder β] (key : α → β) (b x : α) (l : List α) :
    foldBest key b (x :: l) = foldBest key (if key x < key b then x else b) l := rfl

/-- Running `foldBest` over `g s, g (s+1), …, g (s+n-1)`: either the seed
survives (and its key is no larger than every visited key), or the result is
`g j` for the first index `j` whose key beats the seed and is minimal among
all visited keys (every strictly earlier visited index has a strictly larger
key — the "first optimum wins" tie-break). -/
theorem foldBest_range' {α β : Type} [LinearOrder β] (key : α → β) (g : Nat → α) :
    ∀ (n s : Nat) (b : α),
      (foldBest key b ((List.range' s n).map g) = b ∧
        ∀ k, s ≤ k → k < s + n → key b ≤ key (g k)) ∨
      ∃ j, s ≤ j ∧ j < s + n ∧ foldBest key b ((List.range' s n).map g) = g j ∧
        key (g j) < key b ∧ (∀ k, s ≤ k → k < s + n → key (g j) ≤ key (g k)) ∧
        ∀ k, s ≤ k → k < j → key (g j) < key (g k)
  | 0, s, b => by
    left
    refine ⟨rfl, fun k hk hk' => ?_⟩
    omega
  | n + 1, s, b => by
    rw [List.range'_succ, List.map_cons, foldBest_cons]
    by_cases h : key (g s) < key b
    · rw [if_pos h]
      rcases foldBest_range' key g n (s + 1) (g s) with ⟨h1, h2⟩ | ⟨j, hj1, hj2, hj3, hj4, hj5, hj6⟩
      · right
        refine ⟨s, le_refl s, by omega, h1, h, fun k hk hk' => ?_, fun k hk hk' => ?_⟩
        · rcases eq_or_lt_of_le hk with rfl | hk
          · exact le_refl _
          · exact h2 k (by omega) (by omega)
        · omega
      · right
        refine ⟨j, by omega, by omega, hj3, lt_trans hj4 h, fun k hk hk' => ?_, fun k hk hk' => ?_⟩
        · rcases eq_or_lt_of_le hk with rfl | hk
          · exact le_of_lt hj4
          · exact hj5 k (by omega) (by omega)
        · rcases eq_or_lt_of_le hk with rfl | hk
          · exact hj4
          · exact hj6 k (by omega) hk'
    · rw [if_neg h]
      rcases foldBest_range' key g n (s + 1) b with ⟨h1, h2⟩ | ⟨j, hj1, hj2, hj3, hj4, hj5, hj6⟩
      · left
        refine ⟨h1, fun k hk hk' => ?_⟩
        rcases eq_or_lt_of_le hk with rfl | hk
        · exact not_lt.mp h
        · exact h2 k (by omega) (by omega)
      · right
        refine ⟨j, by omega, by omega, hj3, hj4, fun k hk hk' => ?_, fun k hk hk' => ?_⟩
        · rcases eq_or_lt_of_le hk with rfl | hk
          · exact le_of_lt (lt_of_lt_of_le hj4 (not_lt.mp h))
          · exact hj5 k (by omega) (by omega)
        · rcases eq_or_lt_of_le hk with rfl | hk
          · exact lt_of_lt_of_le hj4 (not_lt.mp h)
          · exact hj6 k (by omega) hk'

/-- Seeding `foldBest` with `g s` and running over `g (s+1), …, g (s+n)`: the
result is `g j` for the first argmin index `j` of `key ∘ g` on `[s, s+1+n)`. -/
theorem foldBest_first_argmin {α β : Type} [LinearOrder β] (key : α → β) (g : Nat → α)
    (s n : Nat) :
    ∃ j, s ≤ j ∧ j < s + 1 + n ∧
      foldBest key (g s) ((List.range' (s + 1) n).map g) = g j ∧
      (∀ k, s ≤ k → k < s + 1 + n → key (g j) ≤ key (g k)) ∧
      ∀ k, s ≤ k → k < j → key (g j) < key (g k) := by
  rcases foldBest_range' key g n (s + 1) (g s) with ⟨h1, h2⟩ | ⟨j, hj1, hj2, hj3, hj4, hj5, hj6⟩
  · refine ⟨s, le_refl s, by omega, h1, fun k hk hk' => ?_, fun k hk hk' => ?_⟩
    · rcases eq_or_lt_of_le hk with rfl | hk
      · exact le_refl _
      · exact h2 k (by omega) (by omega)
    · omega
  · refine ⟨j, by omega, by omega, hj3, fun k hk hk' => ?_, fun k hk hk' => ?_⟩
    · rcases eq_or_lt_of_le hk with rfl | hk
      · exact le_of_lt hj4
      · exact hj5 k (by omega) (by omega)
    · rcases eq_or_lt_of_le hk with rfl | hk
      · exact hj4
      · exact hj6 k (by omega) hk'

/-! ## The lag-selection loop of `detectPitch` -/

theorem getD_out_of_range {α : Type} (l : List α) (i : Nat) (d : α) (h : l.length ≤ i) :
    l.getD i d = d := by
  rw [List.getD_eq_getElem?_getD, List.getElem?_eq_none h]
  rfl

theorem foldl_congr_fun {γ δ : Type} {f g : δ → γ → δ} :
    ∀ (l : List γ) (b : δ), (∀ a c, f a c = g a c) → l.foldl f b = l.foldl g b
  | [], _, _ => rfl
  | c :: l, b, h => by rw [List.foldl_cons, List.foldl_cons, h, foldl_congr_fun l _ h]

theorem selectLag_eq_foldBest (cs : List ℚ) :
    selectLag cs =
      (foldBest (fun p : Nat × ℚ => -p.2) ((0 : Nat), (0 : ℚ))
        ((List.range' 1 (cs.length - 1)).map fun lag => (lag, cs.getD lag 0))).1 := by
  unfold selectLag foldBest
  rw [List.foldl_map]
  congr 1
  apply foldl_congr_fun
  intro acc lag
  by_cases h : cs.getD lag 0 > acc.2
  · rw [if_pos h, if_pos (by simpa using h)]
  · rw [if_neg h, if_neg (by simpa using h)]

/-- The scan of `detectPitch` either leaves `maxLag = 0` (no correlation at a
lag in `[1, length)` exceeded the initial `maxCorrelation = 0`), or selects
the first lag attaining the maximum correlation, which is positive. -/
theorem selectLag_spec (cs : List ℚ) :
    (selectLag cs = 0 ∧ ∀ k, 1 ≤ k → k < cs.length → cs.getD k 0 ≤ 0) ∨
    ∃ j, 1 ≤ j ∧ j < cs.length ∧ selectLag cs = j ∧ 0 < cs.getD j 0 ∧
      (∀ k, 1 ≤ k → k < cs.length → cs.getD k 0 ≤ cs.getD j 0) ∧
      ∀ k, 1 ≤ k → k < j → cs.getD k 0 < cs.getD j 0 := by
  rcases foldBest_range' (fun p : Nat × ℚ => -p.2) (fun lag => (lag, cs.getD lag 0))
      (cs.length - 1) 1 ((0 : Nat), (0 : ℚ)) with ⟨h1, h2⟩ | ⟨j, hj1, hj2, hj3, hj4, hj5, hj6⟩
  · left
    refine ⟨by rw [selectLag_eq_foldBest, h1], fun k hk hk' => ?_⟩
    simpa using h2 k hk (by omega)
  · right
    refine ⟨j, hj1, by omega, by rw [selectLag_eq_foldBest, hj3], by simpa using hj4,
      fun k hk hk' => ?_, fun k hk hk' => ?_⟩
    · simpa using hj5 k hk (by omega)
    · simpa using hj6 k hk hk'

theorem correlations_length (buffer : List ℚ) :
    (correlations buffer).length = buffer.length / 2 := by
  simp [correlations]

theorem correlations_getD (buffer : List ℚ) (τ : Nat) (h : τ < buffer.length / 2) :
    (correlations buffer).getD τ 0 =
      ((List.range (buffer.length / 2)).map fun i =>
        buffer.getD i 0 * buffer.getD (i + τ) 0).sum := by
  unfold correlations
  rw [List.getD_eq_getElem?_getD, List.getElem?_map, List.getElem?_range (by simpa using h)]
  rfl

theorem getD_replicate_zero (n i : Nat) : (List.replicate n (0 : ℚ)).getD i 0 = 0 := by
  rw [List.getD_eq_getElem?_getD, List.getElem?_replicate]
  split <;> rfl

theorem correlations_of_zero_frame (n τ : Nat) :
    (correlations (List.replicate n (0 : ℚ))).getD τ 0 = 0 := by
  rcases lt_or_ge τ ((List.replicate n (0 : ℚ)).length / 2) with h | h
  · rw [correlations_getD _ _ h]
    apply List.sum_eq_zero
    intro x hx
    obtain ⟨i, _, rfl⟩ := List.mem_map.mp hx
    simp [getD_replicate_zero]
  · exact getD_out_of_range _ _ _ (by rw [correlations_length]; simpa using h)

/-! ## Claims C1, C5, C10: the autocorrelation strategy -/

/-- C1: for every all-zero input frame, `detectPitch` leaves `maxLag` at its
initial value `0` and divides `sampleRate` by that zero lag (modelled as
`none`, since the JS division yields `Infinity`) — it does NOT return a
guarded "no pitch" value; the claim (and the spec) demand a guard, so this
is the latent bug the spec itself documents: the code divides by the
initial zero lag. -/
theorem C1_zero_frame_selects_lag_zero :
    ∀ (n : Nat) (rate : ℚ),
      selectLag (correlations (List.replicate n (0 : ℚ))) = 0 ∧
      detectPitch (List.replicate n (0 : ℚ)) rate = none := by
  intro n rate
  have hsel : selectLag (correlations (List.replicate n (0 : ℚ))) = 0 := by
    rcases selectLag_spec (correlations (List.replicate n (0 : ℚ))) with
      ⟨h, _⟩ | ⟨j, _, _, _, hj, _, _⟩
    · exact h
    · rw [correlations_of_zero_frame] at hj
      exact absurd hj (lt_irrefl 0)
  exact ⟨hsel, by simp [detectPitch, hsel]⟩

/-- C5 counterexample: on the frame `[1, -1, 1, -1]` every lag-1 correlation
is negative, so the scan never updates `maxLag` from `0`: contrary to the
claim, lag 0 IS selected (and no `sampleRate / τ*` with `τ* ∈ [1, N/2)` is
returned — the division is by zero). -/
theorem C5_counterexample_lag_zero_selected :
    selectLag (correlations [1, -1, 1, -1]) = 0 ∧
    detectPitch [1, -1, 1, -1] 44100 = none := by
  constructor
  · norm_num [selectLag, correlations, List.range_succ, List.range'_succ]
  · norm_num [detectPitch, selectLag, correlations, List.range_succ, List.range'_succ]

/-- C5 (amended): for an even-length windowed frame, `detectPitch` computes
correlation `τ ↦ Σ_{i < N/2} frame[i]·frame[i+τ]` for `τ ∈ [0, N/2)`, and —
PROVIDED some lag in `[1, N/2)` has strictly positive correlation — selects
the first lag maximizing the correlation (strict inequality, first maximum
wins, lag 0 not selected) and returns `sampleRate / τ*`; without that
proviso `maxLag` stays 0 (see the counterexample). -/
theorem C5_first_maximum_lag_selected (buffer : List ℚ) (rate : ℚ)
    (heven : buffer.length % 2 = 0)
    (hex : ∃ τ, 1 ≤ τ ∧ τ < buffer.length / 2 ∧ 0 < (correlations buffer).getD τ 0) :
    (correlations buffer).length = buffer.length / 2 ∧
    (∀ τ, τ < buffer.length / 2 → (correlations buffer).getD τ 0 =
      ((List.range (buffer.length / 2)).map fun i =>
        buffer.getD i 0 * buffer.getD (i + τ) 0).sum) ∧
    1 ≤ selectLag (correlations buffer) ∧
    selectLag (correlations buffer) < buffer.length / 2 ∧
    (∀ k, 1 ≤ k → k < buffer.length / 2 →
      (correlations buffer).getD k 0 ≤
        (correlations buffer).getD (selectLag (correlations buffer)) 0) ∧
    (∀ k, 1 ≤ k → k < selectLag (correlations buffer) →
      (correlations buffer).getD k 0 <
        (correlations buffer).getD (selectLag (correlations buffer)) 0) ∧
    detectPitch buffer rate = some (rate / (selectLag (correlations buffer) : ℚ)) := by
  obtain ⟨τ, hτ1, hτ2, hτ3⟩ := hex
  rcases selectLag_spec (correlations buffer) with ⟨h0, hall⟩ | ⟨j, hj1, hj2, hj3, hj4, hj5, hj6⟩
  · exact absurd hτ3 (not_lt.mpr (hall τ hτ1 (by rw [correlations_length]; exact hτ2)))
  · rw [correlations_length] at hj2
    refine ⟨correlations_length buffer, fun τ' h => correlations_getD buffer τ' h,
      ?_, ?_, ?_, ?_, ?_⟩
    · rw [hj3]; exact hj1
    · rw [hj3]; exact hj2
    · intro k hk hk'
      rw [hj3]
      exact hj5 k hk (by rw [correlations_length]; exact hk')
    · intro k hk hk'
      rw [hj3] at hk' ⊢
      exact hj6 k hk hk'
    · have hne : selectLag (correlations buffer) ≠ 0 := by rw [hj3]; omega
      simp [detectPitch, hne]

/-- C5 witness: on `[2, 2, 1, 1]` the lag-1 correlation `6` is positive, so
the amended claim applies; the returned frequency is `10 / 1`. -/
theorem C5_witness :
    ([2, 2, 1, 1] : List ℚ).length % 2 = 0 ∧
    (∃ τ, 1 ≤ τ ∧ τ < ([2, 2, 1, 1] : List ℚ).length / 2 ∧
      0 < (correlations [2, 2, 1, 1]).getD τ 0) ∧
    detectPitch [2, 2, 1, 1] 10 =
      some (10 / (selectLag (correlations [2, 2, 1, 1]) : ℚ)) := by
  have hex : ∃ τ, 1 ≤ τ ∧ τ < ([2, 2, 1, 1] : List ℚ).length / 2 ∧
      0 < (correlations [2, 2, 1, 1]).getD τ 0 := by
    refine ⟨1, le_refl 1, by norm_num, ?_⟩
    norm_num [correlations, List.range_succ]
  exact ⟨rfl, hex, (C5_first_maximum_lag_selected [2, 2, 1, 1] 10 rfl hex).2.2.2.2.2.2⟩

/-- C10: whenever some lag in `[1, ⌊N/2⌋)` has strictly positive correlation
(so a nonzero lag is selected), the frequency reported by `detectPitch` lies
between `sampleRate/(⌊N/2⌋ - 1)` and `sampleRate` inclusive: the selected
lag is at most `⌊N/2⌋ - 1` and at least `1`. -/
theorem C10_frequency_bounds (buffer : List ℚ) (rate : ℚ) (hrate : 0 < rate)
    (heven : buffer.length % 2 = 0)
    (hex : ∃ τ, 1 ≤ τ ∧ τ < buffer.length / 2 ∧ 0 < (correlations buffer).getD τ 0) :
    ∃ f, detectPitch buffer rate = some f ∧
      rate / ((buffer.length / 2 - 1 : Nat) : ℚ) ≤ f ∧ f ≤ rate := by
  obtain ⟨τ, hτ1, hτ2, hτ3⟩ := hex
  rcases selectLag_spec (correlations buffer) with ⟨h0, hall⟩ | ⟨j, hj1, hj2, hj3, hj4, hj5, hj6⟩
  · exact absurd hτ3 (not_lt.mpr (hall τ hτ1 (by rw [correlations_length]; exact hτ2)))
  · rw [correlations_length] at hj2
    have hne : selectLag (correlations buffer) ≠ 0 := by rw [hj3]; omega
    refine ⟨rate / (selectLag (correlations buffer) : ℚ), by simp [detectPitch, hne], ?_, ?_⟩
    · rw [hj3]
      have h1 : (0 : ℚ) < (j : ℚ) := by exact_mod_cast hj1
      have h2 : (j : ℚ) ≤ ((buffer.length / 2 - 1 : Nat) : ℚ) := by
        exact_mod_cast (by omega : j ≤ buffer.length / 2 - 1)
      gcongr
    · rw [hj3]
      exact div_le_self (le_of_lt hrate) (by exact_mod_cast hj1)

/-- C10 witness: on `[1, 1, 1, 1]` at rate `8` the hypotheses hold and the
detected frequency `8` meets both bounds. -/
theorem C10_witness :
    (0 : ℚ) < 8 ∧ ([1, 1, 1, 1] : List ℚ).length % 2 = 0 ∧
    (∃ τ, 1 ≤ τ ∧ τ < ([1, 1, 1, 1] : List ℚ).length / 2 ∧
      0 < (correlations [1, 1, 1, 1]).getD τ 0) ∧
    ∃ f, detectPitch [1, 1, 1, 1] 8 = some f ∧
      (8 : ℚ) / ((([1, 1, 1, 1] : List ℚ).length / 2 - 1 : Nat) : ℚ) ≤ f ∧ f ≤ 8 := by
  have hex : ∃ τ, 1 ≤ τ ∧ τ < ([1, 1, 1, 1] : List ℚ).length / 2 ∧
      0 < (correlations [1, 1, 1, 1]).getD τ 0 := by
    refine ⟨1, le_refl 1, by norm_num, ?_⟩
    norm_num [correlations, List.range_succ]
  exact ⟨by norm_num, rfl, hex, C10_frequency_bounds [1, 1, 1, 1] 8 (by norm_num) rfl hex⟩

/-! ## Claims C2, C9: the note mapper and the note table -/

theorem tail_eq_map_range' {α : Type} (x : α) (xs : List α) (d : α) :
    xs = (List.range' 1 xs.length).map fun i => (x :: xs).getD i d := by
  apply List.ext_getElem?
  intro n
  rw [List.getElem?_map]
  rcases lt_or_ge n xs.length with h | h
  · rw [List.getElem?_range' 1 1 h, List.getElem?_eq_getElem h]
    simp only [Option.map_some']
    congr 1
    have h1 : 1 + 1 * n = n + 1 := by omega
    rw [h1, List.getD_cons_succ, List.getD_eq_getElem?_getD, List.getElem?_eq_getElem h]
    rfl
  · rw [List.getElem?_eq_none h, List.getElem?_eq_none (by simpa using h)]
    rfl

theorem abs_sub_key_comm (f : ℚ) :
    (fun e : String × ℚ => |f - e.2|) = fun e : String × ℚ => |e.2 - f| := by
  funext e
  exact abs_sub_comm f e.2

theorem freq_to_note_at_440 :
    freq_to_note NOTE_FREQUENCIES 440 = some "A4" := by
  norm_num [freq_to_note, NOTE_FREQUENCIES, foldBest, abs_of_nonneg, abs_of_nonpos]

set_option maxHeartbeats 1000000 in
theorem getNote_at_440 :
    getNote NOTE_FREQUENCIES 440 = some ("A4", 440) := by
  norm_num [getNote, NOTE_FREQUENCIES, abs_of_nonneg, abs_of_nonpos]

set_option maxHeartbeats 1000000 in
/-- C2 counterexample: at `f = 441` (`> 0`, fixed non-empty table) the JS
`getNote` returns `("A#4", 466.16)`, yet the table entry `("A4", 440)` has
strictly smaller deviation (`1` vs `25.16`): `getNote` does not return the
entry minimizing `|referenceFrequency − f|`. Its line-159 comparison
measures each candidate against the PREVIOUS entry's frequency, not against
the input, so the claim is false of the JS variant. -/
theorem C2_counterexample_js_not_nearest :
    getNote NOTE_FREQUENCIES 441 = some ("A#4", 466.16) ∧
    ("A4", (440 : ℚ)) ∈ NOTE_FREQUENCIES ∧
    |(440 : ℚ) - 441| < |(466.16 : ℚ) - 441| := by
  refine ⟨?_, ?_, by norm_num [abs_of_nonneg, abs_of_nonpos]⟩
  · norm_num [getNote, NOTE_FREQUENCIES, abs_of_nonneg, abs_of_nonpos]
  · norm_num [NOTE_FREQUENCIES]

/-- C2 (amended): the PYTHON variant `_freq_to_note` returns, for every
frequency `f > 0` and non-empty table, the name of the entry at some index
`j` whose reference frequency minimizes `|referenceFrequency − f|` over the
whole table, every strictly earlier entry having a strictly larger
deviation (first entry wins ties). The JS variant `getNote` does NOT follow
that rule in general (see the counterexample), but on the fixed table at
`f = 440.0` both variants do return note `"A4"` with reference frequency
`440.00`. -/
theorem C2_python_nearest_note (f : ℚ) (hf : 0 < f) (table : List (String × ℚ))
    (ht : table ≠ []) :
    (∃ j, j < table.length ∧
      freq_to_note table f = some ((table.getD j ("", 0)).1) ∧
      (∀ k, k < table.length →
        |(table.getD j ("", 0)).2 - f| ≤ |(table.getD k ("", 0)).2 - f|) ∧
      (∀ k, k < j → |(table.getD j ("", 0)).2 - f| < |(table.getD k ("", 0)).2 - f|)) ∧
    freq_to_note NOTE_FREQUENCIES 440 = some "A4" ∧
    getNote NOTE_FREQUENCIES 440 = some ("A4", 440) := by
  refine ⟨?_, ?_, ?_⟩
  · match table, ht with
    | x :: xs, _ =>
      obtain ⟨j, hj0, hj1, heq, hmin, hstrict⟩ :=
        foldBest_first_argmin (fun e : String × ℚ => |e.2 - f|)
          (fun i => (x :: xs).getD i ("", 0)) 0 xs.length
      have heq' : foldBest (fun e : String × ℚ => |e.2 - f|) x xs =
          (x :: xs).getD j ("", 0) := by
        rw [← tail_eq_map_range' x xs ("", 0)] at heq
        exact heq
      refine ⟨j, by simp only [List.length_cons]; omega, ?_, ?_, ?_⟩
      · show some (foldBest (fun e : String × ℚ => |f - e.2|) x xs).1 = _
        rw [abs_sub_key_comm f, heq']
      · intro k hk
        exact hmin k (Nat.zero_le k) (by simp only [List.length_cons] at hk; omega)
      · intro k hk
        exact hstrict k (Nat.zero_le k) hk
  · exact freq_to_note_at_440
  · exact getNote_at_440

/-- C2 witness: at `f = 440` on the single-entry table `[("A4", 440)]` the
hypotheses hold and the amended theorem applies. -/
theorem C2_witness :
    (0 : ℚ) < 440 ∧ ([(("A4" : String), (440 : ℚ))] ≠ []) ∧
    ((∃ j, j < ([(("A4" : String), (440 : ℚ))]).length ∧
      freq_to_note [("A4", 440)] 440 = some (([(("A4" : String), (440 : ℚ))].getD j ("", 0)).1) ∧
      (∀ k, k < ([(("A4" : String), (440 : ℚ))]).length →
        |([(("A4" : String), (440 : ℚ))].getD j ("", 0)).2 - 440| ≤
          |([(("A4" : String), (440 : ℚ))].getD k ("", 0)).2 - 440| ) ∧
      (∀ k, k < j → |([(("A4" : String), (440 : ℚ))].getD j ("", 0)).2 - 440| <
          |([(("A4" : String), (440 : ℚ))].getD k ("", 0)).2 - 440| )) ∧
    freq_to_note NOTE_FREQUENCIES 440 = some "A4" ∧
    getNote NOTE_FREQUENCIES 440 = some ("A4", 440)) :=
  ⟨by norm_num, by simp,
    C2_python_nearest_note 440 (by norm_num) [("A4", 440)] (by simp)⟩

set_option maxHeartbeats 1000000 in
theorem note_table_positive : ∀ e ∈ NOTE_FREQUENCIES, 0 < e.2 := by
  norm_num [NOTE_FREQUENCIES, List.forall_mem_cons]

set_option maxHeartbeats 1000000 in
theorem note_table_freqs_increasing :
    List.Chain' (· < ·) (NOTE_FREQUENCIES.map Prod.snd) := by
  norm_num [NOTE_FREQUENCIES, List.chain'_cons]

/-- C9: the note table has exactly 60 entries, starts at `("C0", 16.35)`,
ends at `("B4", 493.88)`, every reference frequency is strictly positive,
all 60 reference frequencies are pairwise distinct, and the two variants'
literals are identical. -/
theorem C9_note_table :
    NOTE_FREQUENCIES.length = 60 ∧
    NOTE_FREQUENCIES.head? = some ("C0", 16.35) ∧
    NOTE_FREQUENCIES.getLast? = some ("B4", 493.88) ∧
    (∀ e ∈ NOTE_FREQUENCIES, 0 < e.2) ∧
    (NOTE_FREQUENCIES.map Prod.snd).Nodup ∧
    NOTE_FREQUENCIES = NOTE_FREQUENCIES_js := by
  exact ⟨rfl, rfl, rfl, note_table_positive,
    (List.chain'_iff_pairwise.mp note_table_freqs_increasing).imp ne_of_lt, rfl⟩

/-! ## Claims C3, C7: the cents calculators -/

/-- C3 counterexample: at `f = 2^(1/2400)`, `r = 1` (both `> 0`), the exact
cents value is `1/2`, but the JS variant `getCents` returns
`Math.floor(1/2) = 0`: it does NOT return exactly `1200·log2(f/r)` — it
floors. -/
theorem C3_counterexample_getCents_floors :
    ((getCents ((2 : ℝ) ^ ((1 : ℝ) / 2400)) 1 : ℤ) : ℝ) ≠
      1200 * Real.logb 2 (((2 : ℝ) ^ ((1 : ℝ) / 2400)) / 1) := by
  have hlog : Real.logb 2 (((2 : ℝ) ^ ((1 : ℝ) / 2400)) / 1) = 1 / 2400 := by
    rw [div_one]
    exact Real.logb_rpow (by norm_num) (by norm_num)
  unfold getCents
  rw [hlog]
  norm_num

/-- C3 (amended): the Python variant returns exactly `1200·log2(f/r)` (no
rounding) for every table note; the JS variant returns the FLOOR
`⌊1200·log2(f/r)⌋`; the anchor identities hold for both: the exact value at
`(r,r)`, `(2r,r)`, `(r,2r)` is `0`, `1200`, `−1200`, and these are integers,
so the floored JS results agree there. -/
theorem C3_cents_formula (f r : ℝ) (hf : 0 < f) (hr : 0 < r) :
    (∀ note q, NOTE_FREQUENCIES.lookup note = some q →
      get_cents_deviation f note = some (1200 * Real.logb 2 (f / (q : ℝ)))) ∧
    getCents f r = ⌊1200 * Real.logb 2 (f / r)⌋ ∧
    1200 * Real.logb 2 (r / r) = 0 ∧
    1200 * Real.logb 2 (2 * r / r) = 1200 ∧
    1200 * Real.logb 2 (r / (2 * r)) = -1200 ∧
    getCents r r = 0 ∧ getCents (2 * r) r = 1200 ∧ getCents r (2 * r) = -1200 := by
  have hr0 : r ≠ 0 := ne_of_gt hr
  have h1 : r / r = 1 := div_self hr0
  have h2 : 2 * r / r = 2 := by field_simp
  have h3 : r / (2 * r) = 1 / 2 := by
    rw [div_mul_eq_div_div_swap, div_self hr0]
  have hlog1 : Real.logb 2 (1 : ℝ) = 0 := Real.logb_one
  have hlog2 : Real.logb 2 (2 : ℝ) = 1 := Real.logb_self_eq_one (by norm_num)
  have hlog3 : Real.logb 2 ((1 : ℝ) / 2) = -1 := by
    rw [one_div, Real.logb_inv, hlog2]
  refine ⟨?_, rfl, ?_, ?_, ?_, ?_, ?_, ?_⟩
  · intro note q hq
    unfold get_cents_deviation
    rw [hq]
    rfl
  · rw [h1, hlog1]; ring
  · rw [h2, hlog2]; ring
  · rw [h3, hlog3]; ring
  · unfold getCents
    rw [h1, hlog1]
    norm_num
  · unfold getCents
    rw [h2, hlog2]
    norm_num
  · unfold getCents
    rw [h3, hlog3]
    norm_num

/-- C3 witness: the amended claim at `f = r = 1` — the JS anchors evaluate
to `0`, `1200`, `−1200`. -/
theorem C3_witness :
    (0 : ℝ) < 1 ∧ getCents 1 1 = 0 ∧ getCents (2 * 1) 1 = 1200 ∧
      getCents 1 (2 * 1) = -1200 := by
  obtain ⟨-, -, -, -, -, h6, h7, h8⟩ := C3_cents_formula 1 1 one_pos one_pos
  exact ⟨one_pos, h6, h7, h8⟩

/-- C7 counterexample: at measured frequency `−1 ≤ 0` (reference note "A4",
reference frequency `440 > 0`) the Python variant returns a value — no
`InvalidFrequency` (nor any) error is raised — and the JS variant likewise
returns an integer. -/
theorem C7_counterexample_no_error_raised :
    (get_cents_deviation (-1) "A4").isSome = true ∧
    ∃ n : ℤ, getCents (-1) 440 = n := by
  constructor
  · have hl : NOTE_FREQUENCIES.lookup "A4" = some 440.00 := by rfl
    simp [get_cents_deviation, hl]
  · exact ⟨_, rfl⟩

/-- C7 (amended): neither cents calculator validates its inputs. The Python
variant returns a value exactly when the note is a key of the table —
independently of the sign of `f` (its only failure mode is a missing key);
the JS variant evaluates the floored log formula unconditionally for all
real inputs. -/
theorem C7_no_input_validation (f : ℝ) (note : String) :
    (get_cents_deviation f note).isSome = (NOTE_FREQUENCIES.lookup note).isSome ∧
    ∀ r : ℝ, getCents f r = ⌊1200 * Real.logb 2 (f / r)⌋ := by
  constructor
  · cases h : NOTE_FREQUENCIES.lookup note <;> simp [get_cents_deviation, h]
  · intro r
    rfl

/-! ## Claim C8: the windowing function -/

theorem hannWindow_length (M : Nat) : (hannWindow M).length = M := by
  unfold hannWindow
  split <;> simp

theorem hannWindow_getD (M i : Nat) (h2 : 2 ≤ M) (hi : i < M) :
    (hannWindow M).getD i 0 =
      0.5 - 0.5 * Real.cos (2 * Real.pi * i / ((M : ℝ) - 1)) := by
  unfold hannWindow
  rw [if_neg (by omega)]
  rw [List.getD_eq_getElem?_getD, List.getElem?_map, List.getElem?_range (by simpa using hi)]
  rfl

theorem applyWindow_length (data : List ℝ) : (applyWindow data).length = data.length := by
  unfold applyWindow
  rw [List.length_zipWith, hannWindow_length, min_self]

theorem applyWindow_getD (data : List ℝ) (i : Nat) (hi : i < data.length) :
    (applyWindow data).getD i 0 = data.getD i 0 * (hannWindow data.length).getD i 0 := by
  unfold applyWindow
  have h1 : data[i]? = some data[i] := List.getElem?_eq_getElem hi
  have h2 : (hannWindow data.length)[i]? = some ((hannWindow data.length).getD i 0) := by
    have hlen : i < (hannWindow data.length).length := by rw [hannWindow_length]; exact hi
    rw [List.getElem?_eq_getElem hlen, List.getD_eq_getElem?_getD,
      List.getElem?_eq_getElem hlen]
    rfl
  rw [List.getD_eq_getElem?_getD, List.getElem?_zipWith', h1, h2]
  simp [List.getD_eq_getElem?_getD, h1]

/-- C8 counterexample: `scipy.signal.windows.hann(1)` is `[1.0]` (no error),
so windowing a length-1 frame returns the frame unchanged instead of
failing with `InvalidInput` as the claim requires. -/
theorem C8_counterexample_no_failure_on_short_frame :
    applyWindow [(1 : ℝ)] = [1] := by
  simp [applyWindow, hannWindow]

/-- C8 (amended): for `N ≥ 2` the windowing function returns exactly `N`
values, the input multiplied element-wise by the Hann coefficient
`0.5·(1 − cos(2πi/(N−1)))`; the coefficients are symmetric and vanish at
both ends. For `N < 2` the code does NOT fail: scipy returns `np.ones(N)`,
so a length-1 frame is returned unchanged and an empty frame stays empty. -/
theorem C8_hann_window (data : List ℝ) (hN : 2 ≤ data.length) :
    (applyWindow data).length = data.length ∧
    (∀ i, i < data.length → (applyWindow data).getD i 0 =
      data.getD i 0 * (0.5 * (1 - Real.cos (2 * Real.pi * i / ((data.length : ℝ) - 1))))) ∧
    (∀ i, i < data.length → (hannWindow data.length).getD i 0 =
      (hannWindow data.length).getD (data.length - 1 - i) 0) ∧
    (hannWindow data.length).getD 0 0 = 0 ∧
    (hannWindow data.length).getD (data.length - 1) 0 = 0 ∧
    (∀ x : ℝ, applyWindow [x] = [x]) ∧
    applyWindow ([] : List ℝ) = [] := by
  have hM1 : ((data.length : ℝ) - 1) ≠ 0 := by
    have : (2 : ℝ) ≤ (data.length : ℝ) := by exact_mod_cast hN
    intro h
    nlinarith
  refine ⟨applyWindow_length data, ?_, ?_, ?_, ?_, ?_, rfl⟩
  · intro i hi
    rw [applyWindow_getD data i hi, hannWindow_getD data.length i hN hi]
    ring
  · intro i hi
    have hi' : data.length - 1 - i < data.length := by omega
    rw [hannWindow_getD data.length i hN hi, hannWindow_getD data.length _ hN hi']
    have hcast : ((data.length - 1 - i : Nat) : ℝ) = (data.length : ℝ) - 1 - (i : ℝ) := by
      have h1 : i ≤ data.length - 1 := by omega
      have h2 : 1 ≤ data.length := by omega
      push_cast [Nat.cast_sub h1, Nat.cast_sub h2]
      ring
    rw [hcast]
    have harg : 2 * Real.pi * ((data.length : ℝ) - 1 - (i : ℝ)) / ((data.length : ℝ) - 1) =
        2 * Real.pi - 2 * Real.pi * (i : ℝ) / ((data.length : ℝ) - 1) := by
      field_simp
      ring
    rw [harg, Real.cos_two_pi_sub]
  · rw [hannWindow_getD data.length 0 hN (by omega)]
    norm_num
  · rw [hannWindow_getD data.length (data.length - 1) hN (by omega)]
    have hcast : ((data.length - 1 : Nat) : ℝ) = (data.length : ℝ) - 1 := by
      have h2 : 1 ≤ data.length := by omega
      push_cast [Nat.cast_sub h2]
      ring
    rw [hcast, mul_div_assoc, div_self hM1, mul_one]
    norm_num [Real.cos_two_pi]
  · intro x
    simp [applyWindow, hannWindow]

/-- C8 witness: for the frame `[3, 5]` (N = 2) the output has length 2 and
both Hann coefficients vanish. -/
theorem C8_witness :
    2 ≤ ([(3 : ℝ), 5]).length ∧
    (applyWindow [(3 : ℝ), 5]).length = ([(3 : ℝ), 5]).length ∧
    (hannWindow ([(3 : ℝ), 5]).length).getD 0 0 = 0 ∧
    (hannWindow ([(3 : ℝ), 5]).length).getD (([(3 : ℝ), 5]).length - 1) 0 = 0 := by
  have h := C8_hann_window [(3 : ℝ), 5] (by norm_num)
  exact ⟨by norm_num, h.1, h.2.2.2.1, h.2.2.2.2.1⟩

/-! ## Claim C4: the spectral-peak strategy -/

theorem zip_map_range {α β : Type} (f : Nat → α) (zs : List β) (n : Nat) (d : β)
    (h : n ≤ zs.length) :
    ((List.range n).map f).zip zs = (List.range n).map fun i => (f i, zs.getD i d) := by
  apply List.ext_getElem?
  intro i
  unfold List.zip
  rw [List.getElem?_zipWith', List.getElem?_map, List.getElem?_map]
  rcases lt_or_ge i n with hi | hi
  · rw [List.getElem?_range hi, List.getElem?_eq_getElem (lt_of_lt_of_le hi h)]
    simp [List.getD_eq_getElem?_getD, List.getElem?_eq_getElem (lt_of_lt_of_le hi h)]
  · rw [List.getElem?_eq_none (by simpa using hi)]
    simp

theorem range_filter_interval (m : Nat) :
    ∀ n, (List.range n).filter (fun k => decide (1 ≤ k ∧ k ≤ m)) =
      List.range' 1 (min m (n - 1))
  | 0 => by simp
  | n + 1 => by
    rw [List.range_succ, List.filter_append, range_filter_interval m n]
    by_cases h : 1 ≤ n ∧ n ≤ m
    · have hfil : List.filter (fun k => decide (1 ≤ k ∧ k ≤ m)) [n] = [n] := by
        simp [List.filter_cons, h]
      rw [hfil]
      obtain ⟨n', rfl⟩ : ∃ n', n = n' + 1 := ⟨n - 1, by omega⟩
      have h1 : min m (n' + 1 - 1) = n' := by omega
      have h2 : min m (n' + 1 + 1 - 1) = n' + 1 := by omega
      rw [h1, h2, List.range'_1_concat, Nat.add_comm 1 n']
    · have hfil : List.filter (fun k => decide (1 ≤ k ∧ k ≤ m)) [n] = [] := by
        simp [List.filter_cons, h]
      rw [hfil, List.append_nil]
      congr 1
      omega

/-- The masked positive-frequency bins of `_get_peak_frequency`: filtering
the zipped `(fftfreq, spectrum)` arrays by `freq > 0` keeps exactly the bins
`k ∈ [1, (n-1)/2]`, i.e. `1 ≤ k < n/2`, paired with their spectrum values. -/
theorem pos_bins_eq (n : Nat) (d : ℚ) (hd : 0 < d) (zs : List ℂ) (hlen : zs.length = n) :
    ((fftfreq n d).zip zs).filter (fun p => 0 < p.1) =
      (List.range' 1 ((n - 1) / 2)).map
        fun (k : Nat) => ((k : ℚ) / (d * (n : ℚ)), zs.getD k 0) := by
  unfold fftfreq
  rw [zip_map_range _ zs n 0 (by omega), List.filter_map]
  have hdn : (0 : ℚ) < d * (n : ℚ) ∨ n = 0 := by
    rcases Nat.eq_zero_or_pos n with h0 | h0
    · right; exact h0
    · left
      have : (0 : ℚ) < (n : ℚ) := by exact_mod_cast h0
      positivity
  have hcongr : ∀ k ∈ List.range n,
      ((fun p : ℚ × ℂ => decide (0 < p.1)) ∘ fun i =>
        ((if i ≤ (n - 1) / 2 then (i : ℚ) / (d * (n : ℚ))
          else ((i : ℚ) - (n : ℚ)) / (d * (n : ℚ))), zs.getD i 0)) k =
      (fun k => decide (1 ≤ k ∧ k ≤ (n - 1) / 2)) k := by
    intro k hk
    have hkn : k < n := List.mem_range.mp hk
    have hdn' : (0 : ℚ) < d * (n : ℚ) := by
      rcases hdn with h | h
      · exact h
      · omega
    simp only [Function.comp_apply, decide_eq_decide]
    by_cases hk2 : k ≤ (n - 1) / 2
    · rw [if_pos hk2]
      constructor
      · intro hpos
        refine ⟨?_, hk2⟩
        by_contra hk0
        have : k = 0 := by omega
        subst this
        norm_num at hpos
      · intro ⟨h1, _⟩
        have hk0 : (0 : ℚ) < (k : ℚ) := by exact_mod_cast h1
        positivity
    · rw [if_neg hk2]
      constructor
      · intro hpos
        exfalso
        have hneg : ((k : ℚ) - (n : ℚ)) / (d * (n : ℚ)) < 0 := by
          apply div_neg_of_neg_of_pos _ hdn'
          have : (k : ℚ) < (n : ℚ) := by exact_mod_cast hkn
          linarith
        exact absurd hpos (asymm hneg)
      · intro ⟨_, h2⟩
        exact absurd h2 hk2
  rw [List.filter_congr hcongr, range_filter_interval]
  have hmin : min ((n - 1) / 2) (n - 1) = (n - 1) / 2 := by omega
  rw [hmin]
  apply List.map_congr_left
  intro k hk
  have hk' : 1 ≤ k ∧ k < 1 + (n - 1) / 2 := List.mem_range'_1.mp hk
  rw [if_pos (by omega)]

/-- Full characterization of `_get_peak_frequency` on a spectrum of length
`n ≥ 3` with bin frequencies `fftfreq n (1/rate)`: the result is the
frequency `j·rate/n` of the first bin `j ∈ [1, n/2)` of maximal magnitude. -/
theorem get_peak_frequency_spec (n : Nat) (rate : ℚ) (zs : List ℂ)
    (hrate : 0 < rate) (hn : 3 ≤ n) (hlen : zs.length = n) :
    ∃ j, 1 ≤ j ∧ 2 * j < n ∧
      get_peak_frequency (fftfreq n (1 / rate)) zs = some ((j : ℚ) * rate / (n : ℚ)) ∧
      (∀ k, 1 ≤ k → 2 * k < n →
        Complex.abs (zs.getD k 0) ≤ Complex.abs (zs.getD j 0)) ∧
      ∀ k, 1 ≤ k → k < j → Complex.abs (zs.getD k 0) < Complex.abs (zs.getD j 0) := by
  have hd : (0 : ℚ) < 1 / rate := by positivity
  obtain ⟨m', hm'⟩ : ∃ m', (n - 1) / 2 = m' + 1 := ⟨(n - 1) / 2 - 1, by omega⟩
  have hpos := pos_bins_eq n (1 / rate) hd zs hlen
  rw [hm', List.range'_succ, List.map_cons] at hpos
  have hval : ∀ k : Nat, (k : ℚ) / (1 / rate * (n : ℚ)) = (k : ℚ) * rate / (n : ℚ) := by
    intro k
    rw [one_div, inv_mul_eq_div, div_div_eq_mul_div]
  obtain ⟨j, hj1, hj2, heq, hmax, hstrict⟩ :=
    foldBest_first_argmin (fun p : ℚ × ℂ => -Complex.abs p.2)
      (fun (k : Nat) => ((k : ℚ) / (1 / rate * (n : ℚ)), zs.getD k 0)) 1 m'
  have hb : ∀ k, 1 ≤ k ∧ k < 1 + 1 + m' ↔ 1 ≤ k ∧ 2 * k < n := by
    intro k
    omega
  refine ⟨j, hj1, (hb j).mp ⟨hj1, hj2⟩ |>.2, ?_, ?_, ?_⟩
  · unfold get_peak_frequency
    rw [hpos]
    show (some (foldBest (fun p : ℚ × ℂ => -Complex.abs p.2)
        ((fun (k : Nat) => ((k : ℚ) / (1 / rate * (n : ℚ)), zs.getD k 0)) 1)
        ((List.range' (1 + 1) m').map
          fun (k : Nat) => ((k : ℚ) / (1 / rate * (n : ℚ)), zs.getD k 0))).1) =
      some ((j : ℚ) * rate / (n : ℚ))
    rw [heq]
    exact congrArg some (hval j)
  · intro k hk hk'
    have := hmax k hk ((hb k).mpr ⟨hk, hk'⟩).2
    simpa using this
  · intro k hk hk'
    have := hstrict k hk hk'
    simpa using this

/-- C4 counterexample: for a frame of length `N = 2` there is no strictly
positive bin frequency at all (`fftfreq 2` is `[0, -rate/2]`), so on a
silent frame `_get_peak_frequency` has no result (numpy `argmax` raises on
the empty masked array) instead of returning `sampleRate/N` as claimed. -/
theorem C4_counterexample_length_two :
    get_peak_frequency (fftfreq 2 (1 / 2)) [0, 0] = none ∧
    get_peak_frequency (fftfreq 2 (1 / 2)) [0, 0] ≠ some ((2 : ℚ) / 2) := by
  have h : ((fftfreq 2 (1 / 2)).zip ([0, 0] : List ℂ)).filter
      (fun p => decide (0 < p.1)) = [] := by
    norm_num [fftfreq, List.range_succ, List.filter_cons]
  constructor
  · unfold get_peak_frequency
    rw [h]
  · unfold get_peak_frequency
    rw [h]
    simp

/-- C4 (amended): for every frame length `N ≥ 3` (so that at least one
strictly positive bin exists), `_get_peak_frequency` considers exactly the
bins `k·sampleRate/N` for `k ∈ [1, N/2)`, selects the one of maximal
magnitude `|complex value|` with ties broken by lowest index, and returns
its frequency; if all considered magnitudes are zero the result is the
lowest positive bin frequency `sampleRate/N`. For `N ≤ 2` the masked array
is empty and there is no result. -/
theorem C4_peak_selection (N : Nat) (rate : ℚ) (fft_data : List ℂ)
    (hrate : 0 < rate) (hN : 3 ≤ N) (hlen : fft_data.length = N) :
    ∃ j, 1 ≤ j ∧ 2 * j < N ∧
      get_peak_frequency (fftfreq N (1 / rate)) fft_data =
        some ((j : ℚ) * rate / (N : ℚ)) ∧
      (∀ k, 1 ≤ k → 2 * k < N →
        Complex.abs (fft_data.getD k 0) ≤ Complex.abs (fft_data.getD j 0)) ∧
      (∀ k, 1 ≤ k → k < j →
        Complex.abs (fft_data.getD k 0) < Complex.abs (fft_data.getD j 0)) ∧
      ((∀ k, 1 ≤ k → 2 * k < N → fft_data.getD k 0 = 0) →
        get_peak_frequency (fftfreq N (1 / rate)) fft_data =
          some (rate / (N : ℚ))) := by
  obtain ⟨j, h1, h2, h3, h4, h5⟩ := get_peak_frequency_spec N rate fft_data hrate hN hlen
  refine ⟨j, h1, h2, h3, h4, h5, ?_⟩
  intro hz
  have hj1 : j = 1 := by
    by_contra hne
    have h1j : 1 < j := by omega
    have hlt := h5 1 (le_refl 1) h1j
    rw [hz 1 (le_refl 1) (by omega), hz j h1 h2] at hlt
    simp at hlt
  rw [h3, hj1]
  norm_num

/-- C4 witness: `N = 4`, `rate = 4`, silent spectrum `[0,0,0,0]`: the
amended claim applies (and the selected bin is the lowest, frequency `1`). -/
theorem C4_witness :
    (0 : ℚ) < 4 ∧ 3 ≤ 4 ∧ ([0, 0, 0, 0] : List ℂ).length = 4 ∧
    ∃ j : Nat, 1 ≤ j ∧ 2 * j < 4 ∧
      get_peak_frequency (fftfreq 4 (1 / 4)) [0, 0, 0, 0] =
        some ((j : ℚ) * 4 / (4 : ℚ)) ∧
      (∀ k : Nat, 1 ≤ k → 2 * k < 4 →
        Complex.abs (([0, 0, 0, 0] : List ℂ).getD k 0) ≤
          Complex.abs (([0, 0, 0, 0] : List ℂ).getD j 0)) ∧
      (∀ k : Nat, 1 ≤ k → k < j →
        Complex.abs (([0, 0, 0, 0] : List ℂ).getD k 0) <
          Complex.abs (([0, 0, 0, 0] : List ℂ).getD j 0)) ∧
      ((∀ k : Nat, 1 ≤ k → 2 * k < 4 → ([0, 0, 0, 0] : List ℂ).getD k 0 = 0) →
        get_peak_frequency (fftfreq 4 (1 / 4)) [0, 0, 0, 0] =
          some (4 / (4 : ℚ))) :=
  ⟨by norm_num, by norm_num, rfl,
    C4_peak_selection 4 4 [0, 0, 0, 0] (by norm_num) (by norm_num) rfl⟩

/-! ## Claim C6: the per-cycle threshold of the stream processor -/

theorem foldBest_mem {α β : Type} [LinearOrder β] (key : α → β) :
    ∀ (l : List α) (b : α), foldBest key b l = b ∨ foldBest key b l ∈ l
  | [], _ => Or.inl rfl
  | x :: l, b => by
    rw [foldBest_cons]
    rcases foldBest_mem key l (if key x < key b then x else b) with h | h
    · rw [h]
      split
      · exact Or.inr (List.mem_cons_self x l)
      · exact Or.inl rfl
    · exact Or.inr (List.mem_cons_of_mem x h)

theorem freq_to_note_mem (f : ℚ) (table : List (String × ℚ)) (ht : table ≠ []) :
    ∃ e, e ∈ table ∧ freq_to_note table f = some e.1 := by
  match table, ht with
  | x :: xs, _ =>
    rcases foldBest_mem (fun e : String × ℚ => |f - e.2|) xs x with h | h
    · refine ⟨x, List.mem_cons_self x xs, ?_⟩
      show some (foldBest (fun e : String × ℚ => |f - e.2|) x xs).1 = some x.1
      rw [h]
    · exact ⟨foldBest (fun e : String × ℚ => |f - e.2|) x xs,
        List.mem_cons_of_mem x h, rfl⟩

theorem lookup_isSome_of_key_mem :
    ∀ (l : List (String × ℚ)) (e : String × ℚ), e ∈ l →
      (List.lookup e.1 l).isSome = true
  | [], e, h => absurd h (List.not_mem_nil e)
  | (k, v) :: l, e, h => by
    by_cases hx : (e.1 == k) = true
    · simp [List.lookup, hx]
    · have he : e ∈ l := by
        rcases List.mem_cons.mp h with heq | hm
        · subst heq
          simp at hx
        · exact hm
      simp only [List.lookup, hx]
      exact lookup_isSome_of_key_mem l e he

theorem getNote_fold_isSome (f : ℚ) :
    ∀ (xs : List (String × ℚ)) (x : String × ℚ),
      (List.foldl (fun closest nf =>
        match closest with
        | none => some nf
        | some c => if |nf.2 - f| < |nf.2 - c.2| then some nf else some c)
        (some x) xs).isSome = true
  | [], _ => rfl
  | y :: ys, x => by
    rw [List.foldl_cons]
    show (List.foldl _ (if |y.2 - f| < |y.2 - x.2| then some y else some x) ys).isSome = true
    by_cases h : |y.2 - f| < |y.2 - x.2|
    · rw [if_pos h]
      exact getNote_fold_isSome f ys y
    · rw [if_neg h]
      exact getNote_fold_isSome f ys x

theorem getNote_isSome (f : ℚ) (table : List (String × ℚ)) (ht : table ≠ []) :
    (getNote table f).isSome = true := by
  match table, ht with
  | x :: xs, _ =>
    unfold getNote
    rw [List.foldl_cons]
    exact getNote_fold_isSome f xs x

theorem note_table_ne_nil : NOTE_FREQUENCIES ≠ [] := by
  unfold NOTE_FREQUENCIES
  exact List.cons_ne_nil _ _

theorem process_cycle_eq (data : List ℝ) (rate : ℚ) (peak : ℚ)
    (hp : peakEstimate data rate = some peak) :
    process_cycle data rate =
      if peak > 20 then
        match freq_to_note NOTE_FREQUENCIES peak with
        | none => none
        | some note =>
          match get_cents_deviation (peak : ℝ) note with
          | none => none
          | some cents => some ⟨note, peak, cents⟩
      else none := by
  unfold process_cycle
  rw [hp]

/-- C6: whenever the estimator produces a frequency, the Python cycle emits
one `TuningResult` (carrying that frequency) if and only if the frequency is
strictly greater than 20 Hz; when it is ≤ 20 the cycle yields nothing — a
normal skip, not an error; and the JS `analyze` emission behaves the same
way for every finite detected frequency. -/
theorem C6_threshold (data : List ℝ) (rate : ℚ) (peak : ℚ)
    (hp : peakEstimate data rate = some peak) :
    ((process_cycle data rate).isSome ↔ 20 < peak) ∧
    (20 < peak →
      ∃ r : TuningResult, process_cycle data rate = some r ∧ r.frequency = peak) ∧
    (peak ≤ 20 → process_cycle data rate = none) ∧
    ∀ f : ℚ, (js_emit f).isSome ↔ 20 < f := by
  have hjs : ∀ f : ℚ, (js_emit f).isSome ↔ 20 < f := by
    intro f
    unfold js_emit
    by_cases h : f > 20
    · rw [if_pos h]
      cases hg : getNote NOTE_FREQUENCIES f with
      | none =>
        have := getNote_isSome f NOTE_FREQUENCIES note_table_ne_nil
        rw [hg] at this
        simp at this
      | some nf => simp [hg, h]
    · rw [if_neg h]
      simpa using h
  by_cases h20 : 20 < peak
  · obtain ⟨e, he, hnote⟩ := freq_to_note_mem peak NOTE_FREQUENCIES note_table_ne_nil
    cases hq : List.lookup e.1 NOTE_FREQUENCIES with
    | none =>
      have := lookup_isSome_of_key_mem NOTE_FREQUENCIES e he
      rw [hq] at this
      simp at this
    | some q =>
      have hc : get_cents_deviation (peak : ℝ) e.1 =
          some (1200 * Real.logb 2 ((peak : ℝ) / (q : ℝ))) := by
        unfold get_cents_deviation
        rw [hq]
        rfl
      have hfull : process_cycle data rate =
          some ⟨e.1, peak, 1200 * Real.logb 2 ((peak : ℝ) / (q : ℝ))⟩ := by
        rw [process_cycle_eq data rate peak hp, if_pos h20, hnote]
        show (match get_cents_deviation (peak : ℝ) e.1 with
          | none => none
          | some cents => some (⟨e.1, peak, cents⟩ : TuningResult)) =
          some ⟨e.1, peak, 1200 * Real.logb 2 ((peak : ℝ) / (q : ℝ))⟩
        rw [hc]
      refine ⟨?_, ?_, ?_, hjs⟩
      · rw [hfull]
        simpa using h20
      · intro _
        exact ⟨_, hfull, rfl⟩
      · intro hle
        exact absurd h20 (not_lt.mpr hle)
  · have hnone : process_cycle data rate = none := by
      rw [process_cycle_eq data rate peak hp, if_neg h20]
    refine ⟨?_, ?_, fun _ => hnone, hjs⟩
    · rw [hnone]
      simpa using h20
    · intro h
      exact absurd h h20

theorem getD_replicate {α : Type} (x : α) (n i : Nat) :
    (List.replicate n x).getD i x = x := by
  rw [List.getD_eq_getElem?_getD, List.getElem?_replicate]
  split <;> rfl

theorem applyWindow_zero_getD (j : Nat) :
    (applyWindow (List.replicate 4 (0 : ℝ))).getD j 0 = 0 := by
  rcases lt_or_ge j (List.replicate 4 (0 : ℝ)).length with hj | hj
  · rw [applyWindow_getD _ j hj, getD_replicate]
    ring
  · exact getD_out_of_range _ _ _ (by rw [applyWindow_length]; exact hj)

theorem dft_applyWindow_zero :
    dft (applyWindow (List.replicate 4 (0 : ℝ))) = List.replicate 4 (0 : ℂ) := by
  unfold dft
  rw [applyWindow_length]
  have hmap : ∀ k ∈ List.range (List.replicate 4 (0 : ℝ)).length,
      (∑ j ∈ Finset.range (List.replicate 4 (0 : ℝ)).length,
        ((applyWindow (List.replicate 4 (0 : ℝ))).getD j 0 : ℂ) *
          Complex.exp (-2 * Real.pi * Complex.I * (j : ℂ) * (k : ℂ) /
            ((List.replicate 4 (0 : ℝ)).length : ℂ))) = (0 : ℂ) := by
    intro k _
    apply Finset.sum_eq_zero
    intro j _
    rw [applyWindow_zero_getD j]
    simp
  calc (List.range (List.replicate 4 (0 : ℝ)).length).map
        (fun (k : Nat) => ∑ j ∈ Finset.range (List.replicate 4 (0 : ℝ)).length,
          ((applyWindow (List.replicate 4 (0 : ℝ))).getD j 0 : ℂ) *
            Complex.exp (-2 * Real.pi * Complex.I * (j : ℂ) * (k : ℂ) /
              ((List.replicate 4 (0 : ℝ)).length : ℂ)))
      = (List.range (List.replicate 4 (0 : ℝ)).length).map (fun _ => (0 : ℂ)) :=
        List.map_congr_left hmap
    _ = List.replicate 4 (0 : ℂ) := rfl

theorem peakEstimate_zero_frame : peakEstimate (List.replicate 4 (0 : ℝ)) 4 = some 1 := by
  unfold peakEstimate
  rw [dft_applyWindow_zero]
  obtain ⟨j, h1, h2, h3, h4, h5⟩ := get_peak_frequency_spec 4 4
    (List.replicate 4 (0 : ℂ)) (by norm_num) (by norm_num) rfl
  have hj : j = 1 := by
    by_contra hne
    have hlt := h5 1 (le_refl 1) (by omega)
    rw [getD_replicate, getD_replicate] at hlt
    simp at hlt
  show get_peak_frequency (fftfreq 4 (1 / 4)) (List.replicate 4 (0 : ℂ)) = some 1
  rw [h3, hj]
  norm_num

/-- C6 witness: on four zero samples at rate 4 the estimate is `1 ≤ 20`, so
the cycle emits nothing — the normal skip, no error. -/
theorem C6_witness :
    peakEstimate (List.replicate 4 (0 : ℝ)) 4 = some 1 ∧
    ((process_cycle (List.replicate 4 (0 : ℝ)) 4).isSome ↔ 20 < (1 : ℚ)) ∧
    process_cycle (List.replicate 4 (0 : ℝ)) 4 = none := by
  have hp := peakEstimate_zero_frame
  have h := C6_threshold (List.replicate 4 (0 : ℝ)) 4 1 hp
  exact ⟨hp, h.1, h.2.2.1 (by norm_num)⟩
